import Mathlib

/-!
Verification development for the dataglimpse schema/relationship inference
engine.  The definitions below are shallow embeddings of the TypeScript
sources: `src/lib/sqlite.ts` (`guessAffinity`, `coerceByAffinity`, `importCsv`),
`src/lib/csvUtils.ts` (`inferColumns`), the schema service (`inferSchema`,
`toSqlLiteral`), the SQLite meta service (`getUniqueColumns`, `getTablesMeta`,
`inferForeignKeys`, `diceSim`) and the dashboard analytics (`inferFkEdges`).
JS strings are modelled as Lean `String` (the data is ASCII-shaped), JS
numbers as exact rationals, SQL NULL / JS null and undefined as `Option`.
-/

/-! ### Character-list implementations of the JS string primitives

(`trim`, `toLowerCase`, `endsWith`, slicing.)  The data handled by this code
is ASCII-shaped, and these definitions compute by kernel reduction. -/

/-- JS whitespace as it occurs in this data (space, tab, newlines, vertical
tab, form feed). -/
def isJsWS (c : Char) : Bool :=
  c = ' ' || c = '\t' || c = '\n' || c = '\r' || c.toNat = 11 || c.toNat = 12

/-- `s.trim()`. -/
def String.jsTrim (s : String) : String :=
  String.mk (((s.data.dropWhile isJsWS).reverse.dropWhile isJsWS).reverse)

/-- ASCII lower-casing of one character. -/
def lowerChar (c : Char) : Char :=
  if 'A' ≤ c && c ≤ 'Z' then Char.ofNat (c.toNat + 32) else c

/-- `s.toLowerCase()` (ASCII). -/
def String.jsLower (s : String) : String := String.mk (s.data.map lowerChar)

/-- `s.endsWith(suf)`. -/
def String.jsEndsWith (s suf : String) : Bool :=
  decide (suf.data.length ≤ s.data.length) &&
    (s.data.drop (s.data.length - suf.data.length) == suf.data)

/-- `s.slice(0, -n)`: drop the last `n` characters. -/
def String.jsDropRight (s : String) (n : ℕ) : String :=
  String.mk (s.data.take (s.data.length - n))

namespace DataGlimpse

/-! ### Character-class and regex primitives

The sources use a handful of anchored regular expressions; each is embedded
as a total Boolean function on the character list of the string. -/

/-- ASCII digit test, the JS `\d` class. -/
def isDig (c : Char) : Bool := c.isDigit

/-- `\d+` running to the end of input: one or more digits and nothing else. -/
def digitRun (l : List Char) : Bool := !l.isEmpty && l.all isDig

/-- Body of `intRe = /^[+-]?\d+$/` (optional sign, digits only). -/
def intShape : List Char → Bool
  | [] => false
  | c :: cs => if c = '+' || c = '-' then digitRun cs else digitRun (c :: cs)

/-- `intRe.test(s)`. -/
def isIntStr (s : String) : Bool := intShape s.data

/-- Mantissa alternatives `\d+\.\d*`, `\.\d+`, `\d+` of `realRe`. -/
def mantShape (l : List Char) : Bool :=
  let ds := l.takeWhile isDig
  let rest := l.dropWhile isDig
  match rest with
  | [] => !ds.isEmpty
  | '.' :: tl => if ds.isEmpty then !tl.isEmpty && tl.all isDig else tl.all isDig
  | _ => false

/-- Optional exponent `(?:[eE][+-]?\d+)?` at the end of input. -/
def expShape : List Char → Bool
  | [] => true
  | c :: cs => (c = 'e' || c = 'E') && intShape cs

/-- Body of `realRe = /^[+-]?(?:\d+\.\d*|\.\d+|\d+)(?:[eE][+-]?\d+)?$/`. -/
def realShape (l : List Char) : Bool :=
  let body :=
    match l with
    | c :: cs => if c = '+' || c = '-' then cs else c :: cs
    | [] => []
  let notExp : Char → Bool := fun c => !(c = 'e' || c = 'E')
  mantShape (body.takeWhile notExp) && expShape (body.dropWhile notExp)

/-- `realRe.test(s)`. -/
def isRealStr (s : String) : Bool := realShape s.data

/-- Consume exactly `n` digits, returning the rest of the input. -/
def takeDig (n : Nat) (l : List Char) : Option (List Char) :=
  if (l.take n).length = n && (l.take n).all isDig then some (l.drop n) else none

/-- Consume one literal character. -/
def takeLit (c : Char) : List Char → Option (List Char)
  | x :: xs => if x = c then some xs else none
  | [] => none

/-- Time-of-day tail `\d{2}:\d{2}(?::\d{2})?` of `dateRe`. -/
def timeTail (l : List Char) : Option (List Char) :=
  (takeDig 2 l).bind fun l1 =>
    (takeLit ':' l1).bind fun l2 =>
      (takeDig 2 l2).map fun l3 =>
        match l3 with
        | ':' :: tl =>
            if (tl.take 2).length = 2 && (tl.take 2).all isDig then tl.drop 2 else l3
        | _ => l3

/-- Optional zone suffix `(?:Z|[+-]\d{2}:\d{2})?$` of `dateRe`. -/
def zoneEnd (l : List Char) : Bool :=
  match l with
  | [] => true
  | ['Z'] => true
  | c :: cs =>
      (c = '+' || c = '-') &&
        (match (takeDig 2 cs).bind fun l1 => (takeLit ':' l1).bind (takeDig 2) with
         | some [] => true
         | _ => false)

/-- Body of
`dateRe = /^\d{4}-\d{2}-\d{2}(?:[ T]\d{2}:\d{2}(?::\d{2})?)?(?:Z|[+-]\d{2}:\d{2})?$/`. -/
def dateShape (l : List Char) : Bool :=
  match (takeDig 4 l).bind fun a => (takeLit '-' a).bind fun b =>
        (takeDig 2 b).bind fun c => (takeLit '-' c).bind (takeDig 2) with
  | none => false
  | some rest =>
      match rest with
      | c :: cs =>
          if c = ' ' || c = 'T' then
            match timeTail cs with
            | some r2 => zoneEnd r2
            | none => false
          else zoneEnd rest
      | [] => true

/-- `dateRe.test(s)`. -/
def isDateStr (s : String) : Bool := dateShape s.data

/-- `boolTrue = new Set(["true","1","yes","y","t"])`. -/
def boolTrueTokens : List String := ["true", "1", "yes", "y", "t"]

/-- `boolFalse = new Set(["false","0","no","n","f"])`. -/
def boolFalseTokens : List String := ["false", "0", "no", "n", "f"]

/-- Membership in either boolean-token set. -/
def isBoolTok (s : String) : Bool :=
  boolTrueTokens.contains s || boolFalseTokens.contains s

/-! ### SQLite type affinity and JS values -/

/-- The four storage affinities assigned by the inference code. -/
inductive Affinity where
  | INTEGER
  | REAL
  | NUMERIC
  | TEXT
deriving DecidableEq

/-- A JS value as it reaches `guessAffinity`: `jnull` covers both `null` and
`undefined` (the code treats them alike), `jstr` a string, `jnum` a native
number modelled as an exact rational (`Number.isInteger` becomes a
denominator-1 test). -/
inductive JSVal where
  | jnull
  | jstr (s : String)
  | jnum (x : ℚ)
deriving DecidableEq

/-! ### `guessAffinity` (src/lib/sqlite.ts) -/

/-- The loop counters of `guessAffinity`. -/
structure GStats where
  nn : ℕ
  ints : ℕ
  nums : ℕ
  dates : ℕ
  bools : ℕ
deriving DecidableEq

/-- One iteration of the counting loop in `guessAffinity`; the
`continue`-chain (bool, else int, else real, else date) is rendered as one
simultaneous update whose guards encode the chain. -/
def gStep (st : GStats) (v : JSVal) : GStats :=
  match v with
  | .jnull => st
  | .jnum x =>
      { st with nn := st.nn + 1, nums := st.nums + 1,
                ints := if x.den = 1 then st.ints + 1 else st.ints }
  | .jstr s =>
      if s = "" then st
      else
        let t := s.jsTrim.jsLower
        if t = "" then { st with nn := st.nn + 1 }
        else
          { nn := st.nn + 1,
            ints := if !isBoolTok t && isIntStr t then st.ints + 1 else st.ints,
            nums := if !isBoolTok t && (isIntStr t || isRealStr t) then st.nums + 1 else st.nums,
            dates := if !isBoolTok t && !isIntStr t && !isRealStr t && isDateStr t then
                st.dates + 1 else st.dates,
            bools := if isBoolTok t then st.bools + 1 else st.bools }

/-- The counters after scanning the whole value list. -/
def gStats (values : List JSVal) : GStats := values.foldl gStep ⟨0, 0, 0, 0, 0⟩

/-- Result record of `guessAffinity`. -/
structure GuessOut where
  affinity : Affinity
  isBool : Bool
  isDateLike : Bool
deriving DecidableEq

/-- `guessAffinity(values)`: decision cascade over the counters, coverage
ratios computed exactly in ℚ. -/
def guessAffinity (values : List JSVal) : GuessOut :=
  let st := gStats values
  if st.nn = 0 then ⟨.TEXT, false, false⟩
  else if Rat.divInt 95 100 ≤ Rat.divInt st.bools st.nn then ⟨.INTEGER, true, false⟩
  else if st.ints = st.nn then ⟨.INTEGER, false, false⟩
  else if st.nums = st.nn then ⟨.REAL, false, false⟩
  else if Rat.divInt 8 10 ≤ Rat.divInt st.dates st.nn then ⟨.NUMERIC, false, true⟩
  else ⟨.TEXT, false, false⟩

/-! ### `inferSchema` (schema service, part_021) -/

/-- The per-column counters of the `inferSchema` loop; `seen` is the set of
trimmed non-empty values used for the uniqueness check. -/
structure ColStats where
  nonNull : ℕ
  asInt : ℕ
  asReal : ℕ
  asBool : ℕ
  asDate : ℕ
  empty : ℕ
  seen : Finset String
deriving DecidableEq

/-- One iteration of the row loop in `inferSchema` for a fixed column.  The
source tests bool, int-else-real and date independently; each counter gets
its guard directly. -/
def cStep (st : ColStats) (rawIn : String) : ColStats :=
  let raw := rawIn.jsTrim
  if raw = "" then { st with empty := st.empty + 1 }
  else
    { nonNull := st.nonNull + 1,
      asInt := if isIntStr raw then st.asInt + 1 else st.asInt,
      asReal := if !isIntStr raw && isRealStr raw then st.asReal + 1 else st.asReal,
      asBool := if isBoolTok raw.jsLower then st.asBool + 1 else st.asBool,
      asDate := if isDateStr raw then st.asDate + 1 else st.asDate,
      empty := st.empty,
      seen := insert raw st.seen }

/-- Counters after scanning all values of one column. -/
def cStats (values : List String) : ColStats := values.foldl cStep ⟨0, 0, 0, 0, 0, 0, ∅⟩

/-- The `InferredCol` record of the schema service. -/
structure InferredCol where
  name : String
  affinity : Affinity
  notNull : Bool
  unique : Bool
  isBool : Bool
  isDateLike : Bool
deriving DecidableEq

/-- The per-column part of `inferSchema`: affinity cascade, `notNull`
(`empty === 0`) and `unique` (`nonNull > 0 && seen.size === nonNull`). -/
def profileCol (h : String) (values : List String) : InferredCol :=
  let st := cStats values
  let aff : Affinity × Bool × Bool :=
    if st.nonNull = 0 then (.TEXT, false, false)
    else if Rat.divInt 95 100 ≤ Rat.divInt st.asBool st.nonNull then (.INTEGER, true, false)
    else if st.asInt = st.nonNull then (.INTEGER, false, false)
    else if st.asInt + st.asReal = st.nonNull then (.REAL, false, false)
    else if Rat.divInt 8 10 ≤ Rat.divInt st.asDate st.nonNull then (.NUMERIC, false, true)
    else (.TEXT, false, false)
  { name := h, affinity := aff.1,
    notNull := decide (st.empty = 0),
    unique := decide (0 < st.nonNull) && decide (st.seen.card = st.nonNull),
    isBool := aff.2.1, isDateLike := aff.2.2 }

/-- A row as the TS code sees it: an association list from column name to the
raw string value (`Record<string, string>`). -/
abbrev Row := List (String × String)

/-- `(r[h] ?? "")`: the raw cell value, empty string when absent. -/
def getCell (r : Row) (h : String) : String :=
  ((r.find? (fun p => p.1 == h)).map (fun p => p.2)).getD ""

/-- The primary-key candidate test of `inferSchema`: name is `id` or
`<table>_id` and the column is unique, not-null, INTEGER-or-TEXT. -/
def pkQual (table : String) (c : InferredCol) : Bool :=
  let lname := c.name.jsLower
  (lname == "id" || lname == table.jsLower ++ "_id") && c.unique && c.notNull &&
    (c.affinity == .INTEGER || c.affinity == .TEXT)

/-- The fallback of `inferSchema`: a column literally named `id` that is
not-null and INTEGER (uniqueness NOT required by the code). -/
def pkFallback (c : InferredCol) : Bool :=
  c.name.jsLower == "id" && c.notNull && c.affinity == .INTEGER

/-- Result of `inferSchema`. -/
structure SchemaOut where
  cols : List InferredCol
  pk : Option String
  uniqueCols : List String
deriving DecidableEq

/-- `inferSchema(rows, headers, table)`.  The source accumulates `cols`,
`uniqueCols` and `pkCandidates` in one loop over `headers`; the loop is
rendered as order-preserving `map`/`filter`, and `pk` is
`pkCandidates[0]` with the `id`-typed fallback. -/
def inferSchema (rows : List Row) (headers : List String) (table : String) : SchemaOut :=
  let cols := headers.map (fun h => profileCol h (rows.map (fun r => getCell r h)))
  let uniqueCols := (cols.filter (fun c => c.unique && c.notNull)).map (fun c => c.name)
  let pkCandidates := (cols.filter (pkQual table)).map (fun c => c.name)
  let pk :=
    match pkCandidates.head? with
    | some p => some p
    | none => (cols.find? pkFallback).map (fun c => c.name)
  ⟨cols, pk, uniqueCols⟩

/-! ### `toSqlLiteral` (schema service, part_021) -/

/-- Escape embedded single quotes, `v.replace(/'/g, "''")`. -/
def sqEscape (s : String) : String :=
  let q : Char := Char.ofNat 39
  String.mk (s.data.foldr (fun c acc => if c = q then q :: q :: acc else c :: acc) [])

/-- `toSqlLiteral(raw, col)`: empty to NULL, boolean columns to 1/0/NULL,
valid INTEGER/REAL shapes passed through unquoted, everything else quoted
with `''`-escaping. -/
def toSqlLiteral (raw : Option String) (col : InferredCol) : String :=
  let v := (raw.getD "").jsTrim
  if v = "" then "NULL"
  else if col.isBool then
    let lower := v.jsLower
    if boolTrueTokens.contains lower then "1"
    else if boolFalseTokens.contains lower then "0"
    else "NULL"
  else if col.affinity == .INTEGER && isIntStr v then v
  else if col.affinity == .REAL && (isIntStr v || isRealStr v) then v
  else "'" ++ sqEscape v ++ "'"

/-- Numeric value of a digit run. -/
def digitsVal (l : List Char) : ℕ := l.foldl (fun acc c => 10 * acc + (c.toNat - 48)) 0

/-- Integer value of a string of shape `[+-]?\d+`. -/
def intVal (s : String) : ℤ :=
  match s.data with
  | '-' :: cs => -(digitsVal cs : ℤ)
  | '+' :: cs => (digitsVal cs : ℤ)
  | l => (digitsVal l : ℤ)

/-- Parse a produced SQL literal back as an integer, `none` when the literal
is not an integer literal (e.g. `NULL` or a quoted string). -/
def parseIntLit (s : String) : Option ℤ :=
  if isIntStr s then some (intVal s) else none

/-! ### `inferColumns` (src/lib/csvUtils.ts)

csvUtils has its own, stricter numeric patterns (`/^-?\d+$/`,
`/^-?\d+(\.\d+)?$/`) and a family of date-shape patterns. -/

/-- csvUtils `isInt`: `/^-?\d+$/`. -/
def csvIsInt (s : String) : Bool :=
  match s.data with
  | '-' :: cs => digitRun cs
  | l => digitRun l

/-- Tail of csvUtils `isDecimal` after the optional sign: `\d+(\.\d+)?`. -/
def decTail (l : List Char) : Bool :=
  let ds := l.takeWhile isDig
  let rest := l.dropWhile isDig
  !ds.isEmpty &&
    (match rest with
     | [] => true
     | '.' :: tl => digitRun tl
     | _ => false)

/-- csvUtils `isDecimal`: `/^-?\d+(\.\d+)?$/`. -/
def csvIsDec (s : String) : Bool :=
  match s.data with
  | '-' :: cs => decTail cs
  | l => decTail l

/-- Consume `\d{1,2}` returning the digits and the rest (the follower is
never a digit in the date patterns, so greedy matching is deterministic). -/
def grab1or2 : List Char → Option (List Char × List Char)
  | a :: b :: rest =>
      if isDig a then (if isDig b then some ([a, b], rest) else some ([a], b :: rest))
      else none
  | [a] => if isDig a then some ([a], []) else none
  | [] => none

/-- The month alternation `(0?[1-9]|1[0-2])` applied to the grabbed digits. -/
def monthDigitsOk : List Char → Bool
  | [a] => '1' ≤ a && a ≤ '9'
  | [a, b] => (a = '0' && '1' ≤ b && b ≤ '9') || (a = '1' && '0' ≤ b && b ≤ '2')
  | _ => false

/-- The day alternation `(0?[1-9]|[12]\d|3[01])`. -/
def dayDigitsOk : List Char → Bool
  | [a] => '1' ≤ a && a ≤ '9'
  | [a, b] =>
      (a = '0' && '1' ≤ b && b ≤ '9') || ((a = '1' || a = '2') && isDig b) ||
        (a = '3' && (b = '0' || b = '1'))
  | _ => false

/-- Optional csvUtils time suffix `(?:[ T]\d{1,2}:\d{2}(?::\d{2})?)?$`. -/
def csvTimeOpt (l : List Char) : Bool :=
  match l with
  | [] => true
  | c :: cs =>
      (c = ' ' || c = 'T') &&
        (match (grab1or2 cs).bind fun p => (takeLit ':' p.2).bind (takeDig 2) with
         | some rest2 =>
             (match rest2 with
              | [] => true
              | ':' :: tl => (match takeDig 2 tl with | some [] => true | _ => false)
              | _ => false)
         | none => false)

/-- Year-first variants `^\d{4}SEP\d{1,2}SEP\d{1,2}(TIME)?$` with a fixed
separator per variant (`-`, `/` or `.`). -/
def yearFirstShape (sep : Char) (l : List Char) : Bool :=
  match (takeDig 4 l).bind fun a => (takeLit sep a).bind fun b =>
        (grab1or2 b).bind fun p => (takeLit sep p.2).bind fun c2 =>
        (grab1or2 c2).map (·.2) with
  | some rest => csvTimeOpt rest
  | none => false

/-- `^\d{4}\d{2}\d{2}$`: eight concatenated digits. -/
def yyyymmddShape (l : List Char) : Bool := l.length = 8 && l.all isDig

/-- A `/` or `-` separator (each occurrence independent, per `SEP`). -/
def sepSlashDash : List Char → Option (List Char)
  | c :: cs => if c = '/' || c = '-' then some cs else none
  | [] => none

/-- MDY variant `^(0?[1-9]|1[0-2])SEP(0?[1-9]|[12]\d|3[01])SEP\d{4}(TIME)?$`. -/
def mdyShape (l : List Char) : Bool :=
  match (grab1or2 l).bind fun m =>
        (if monthDigitsOk m.1 then sepSlashDash m.2 else none).bind fun r1 =>
        (grab1or2 r1).bind fun d =>
        (if dayDigitsOk d.1 then sepSlashDash d.2 else none).bind (takeDig 4) with
  | some rest => csvTimeOpt rest
  | none => false

/-- DMY variant `^(0?[1-9]|[12]\d|3[01])SEP(0?[1-9]|1[0-2])SEP\d{4}(TIME)?$`. -/
def dmyShape (l : List Char) : Bool :=
  match (grab1or2 l).bind fun d =>
        (if dayDigitsOk d.1 then sepSlashDash d.2 else none).bind fun r1 =>
        (grab1or2 r1).bind fun m =>
        (if monthDigitsOk m.1 then sepSlashDash m.2 else none).bind (takeDig 4) with
  | some rest => csvTimeOpt rest
  | none => false

/-- Mandatory ISO zone `(Z|[+\-]\d{2}:\d{2})$`. -/
def zoneReq : List Char → Bool
  | ['Z'] => true
  | c :: cs =>
      (c = '+' || c = '-') &&
        (match (takeDig 2 cs).bind fun l1 => (takeLit ':' l1).bind (takeDig 2) with
         | some [] => true
         | _ => false)
  | [] => false

/-- ISO variant `^\d{4}-\d{2}-\d{2}T\d{2}:\d{2}:\d{2}(?:\.\d+)?(Z|[+\-]\d{2}:\d{2})$`. -/
def isoShape (l : List Char) : Bool :=
  match (takeDig 4 l).bind fun a => (takeLit '-' a).bind fun b =>
        (takeDig 2 b).bind fun c => (takeLit '-' c).bind fun d =>
        (takeLit 'T' d).bind fun e => (takeDig 2 e).bind fun f =>
        (takeLit ':' f).bind fun g => (takeDig 2 g).bind fun h2 =>
        (takeLit ':' h2).bind (takeDig 2) with
  | none => false
  | some rest =>
      let rest2 :=
        match rest with
        | '.' :: tl => if (tl.takeWhile isDig).isEmpty then rest else tl.dropWhile isDig
        | _ => rest
      zoneReq rest2

/-- csvUtils `isDateLike(s)`: trim, then try every variant. -/
def csvIsDateLike (s : String) : Bool :=
  let v := s.jsTrim
  if v.length = 0 then false
  else
    yearFirstShape '-' v.data || yearFirstShape '/' v.data || yearFirstShape '.' v.data ||
      yyyymmddShape v.data || isoShape v.data || mdyShape v.data || dmyShape v.data

/-- csvUtils column result: `{name, type, nullRate, unique}`. -/
inductive InferredType where
  | int
  | decimal
  | date
  | str
deriving DecidableEq

/-- `InferredColumn` of csvUtils (the `string` type tag is rendered `str`). -/
structure InferredColumn where
  name : String
  type : InferredType
  nullRate : ℚ
  unique : Bool
deriving DecidableEq

/-- A CSV row for `inferColumns`: association list, a missing key models a JS
`undefined` and an entry with `none` models `null`. -/
abbrev CsvRow := List (String × Option String)

/-- `r[h]` with the undefined/null distinction preserved. -/
def csvLookup (r : CsvRow) (h : String) : Option (Option String) :=
  (r.find? (fun p => p.1 == h)).map (fun p => p.2)

/-- Loop state of `inferColumns` for one column. -/
structure CsvColStats where
  nullCount : ℕ
  ints : ℕ
  decimals : ℕ
  dates : ℕ
  seen : Finset String
  hasNull : Bool
deriving DecidableEq

/-- One iteration of the value loop in `inferColumns` (int, else decimal,
else date-like; the chain's guards are made explicit). -/
def csvStep (st : CsvColStats) (v : Option String) : CsvColStats :=
  match v with
  | none => { st with nullCount := st.nullCount + 1, hasNull := true }
  | some s0 =>
      if s0 = "" then { st with nullCount := st.nullCount + 1, hasNull := true }
      else
        let s := s0.jsTrim
        if s.length = 0 then { st with nullCount := st.nullCount + 1, hasNull := true }
        else
          { nullCount := st.nullCount,
            ints := if csvIsInt s then st.ints + 1 else st.ints,
            decimals := if !csvIsInt s && csvIsDec s then st.decimals + 1 else st.decimals,
            dates := if !csvIsInt s && !csvIsDec s && csvIsDateLike s then
                st.dates + 1 else st.dates,
            seen := insert s st.seen,
            hasNull := st.hasNull }

/-- `inferColumns(rows, headers)`.  `values` keeps `null` entries but drops
`undefined` ones (`.filter(v => v !== undefined)`), and `unique` requires
`!hasNull`: any null/empty value disqualifies uniqueness here. -/
def inferColumns (rows : List CsvRow) (headers : List String) : List InferredColumn :=
  headers.map fun h =>
    let values := rows.filterMap (fun r => csvLookup r h)
    let st := values.foldl csvStep ⟨0, 0, 0, 0, ∅, false⟩
    let nonNull := values.length - st.nullCount
    let ty : InferredType :=
      if 0 < nonNull then
        if st.ints = nonNull then .int
        else if st.ints + st.decimals = nonNull then .decimal
        else if st.dates = nonNull then .date
        else .str
      else .str
    let nullRate := Rat.divInt st.nullCount (if values.length = 0 then 1 else (values.length : ℤ))
    let uniq := !st.hasNull && decide (st.seen.card = nonNull) && decide (0 < nonNull)
    ⟨h, ty, nullRate, uniq⟩

/-! ### Name normalization and Dice similarity (part_012, badgeHeuristics)

`normalize` and the bigram Dice coefficient appear verbatim in both the
SQLite meta service (`normalize`/`diceSim`) and the ER badge heuristics
(`normalize`/`dice`); one embedding serves both. -/

/-- `[a-z0-9]` after lower-casing (`replace(/[^a-z0-9]/g, "")` keeps these). -/
def isAlnumLower (c : Char) : Bool :=
  ('a' ≤ c && c ≤ 'z') || ('0' ≤ c && c ≤ '9')

/-- Drop every character outside `[a-z0-9]`. -/
def filterAlnum (s : String) : String := String.mk (s.data.filter isAlnumLower)

/-- `replace(/(ies)$/, "y")`. -/
def depluralIes (s : String) : String :=
  if s.jsEndsWith "ies" then s.jsDropRight 3 ++ "y" else s

/-- `replace(/(sses|xes|zes|ches|shes)$/, m => m.slice(0, -2))`. -/
def depluralEs (s : String) : String :=
  if s.jsEndsWith "sses" || s.jsEndsWith "xes" || s.jsEndsWith "zes" ||
      s.jsEndsWith "ches" || s.jsEndsWith "shes"
  then s.jsDropRight 2 else s

/-- `replace(/s$/, "")`. -/
def depluralS (s : String) : String :=
  if s.jsEndsWith "s" then s.jsDropRight 1 else s

/-- `normalize(s)`: lower-case, strip non-alphanumerics, then the three
de-pluralization rewrites in source order. -/
def normalize (s : String) : String :=
  depluralS (depluralEs (depluralIes (filterAlnum s.jsLower)))

/-- `bigrams(s)`: the set of contiguous 2-character slices; a string shorter
than 2 characters yields the singleton of itself. -/
def bigrams (s : String) : Finset String :=
  if s.length < 2 then {s}
  else ((List.range (s.length - 1)).map (fun i => String.mk ((s.data.drop i).take 2))).toFinset

/-- `diceSim(a, b)` / `dice(a, b)`: `2·|A∩B| / (|A|+|B|)` with a zero-denominator
guard (the loop `for x of A: if B.has(x) inter++` counts `|A∩B|`). -/
def diceSim (a b : String) : ℚ :=
  if (bigrams a).card + (bigrams b).card = 0 then 0
  else Rat.divInt (2 * ((bigrams a ∩ bigrams b).card : ℕ)) (((bigrams a).card + (bigrams b).card : ℕ) : ℤ)

/-! ### Meta-service data model and `inferForeignKeys` (part_012) -/

/-- `ColumnMeta` of the ER domain. -/
structure ColumnMeta where
  name : String
  dataType : String
  uniqueNoNull : Bool
  isPk : Bool
deriving DecidableEq

/-- `TableMeta` of the ER domain. -/
structure TableMeta where
  name : String
  columns : List ColumnMeta
deriving DecidableEq

/-- `FKTuple` of the ER domain. -/
structure FKTuple where
  fromTable : String
  fromColumn : String
  toTable : String
  toColumn : String
deriving DecidableEq

/-- `InferOptions` with the similarity threshold as an exact rational. -/
structure InferOptions where
  nameHintMinSim : ℚ
  excludeBareId : Bool
  allowSelfReference : Bool
deriving DecidableEq

/-- `defaultInferOptions = {nameHintMinSim: 0.8, excludeBareId: true,
allowSelfReference: false}`. -/
def defaultInferOptions : InferOptions := ⟨Rat.divInt 8 10, true, false⟩

/-- JS-`Set`-style insertion: append iff not already present, preserving
first-insertion order. -/
def pushUnique (acc : List String) (x : String) : List String :=
  if acc.contains x then acc else acc ++ [x]

/-- First-insertion-order deduplication (`new Set([...])` iteration order). -/
def firstDedup (l : List String) : List String := l.foldl pushUnique []

/-- The per-table unique-key candidate set of `inferForeignKeys` step 1:
columns with `isPk`, name `id` (case-insensitive) or `uniqueNoNull`, in
column order. -/
def uniqueKeyCols (t : TableMeta) : List String :=
  firstDedup ((t.columns.filter
    (fun c => c.isPk || c.name.jsLower == "id" || c.uniqueNoNull)).map (fun c => c.name))

/-- `Map.get` over entries written in list order: later writes win. -/
def lookupLast (m : List (String × List String)) (k : String) : Option (List String) :=
  (m.reverse.find? (fun p => p.1 == k)).map (fun p => p.2)

/-- `lc.match(/^(.+)_id$/)`: the captured base, `none` when the lowercased
name does not end in `_id` with a non-empty prefix. -/
def fkM1 (lc : String) : Option String :=
  if lc.jsEndsWith "_id" && decide (3 < lc.length) then some (lc.jsDropRight 3) else none

/-- The best-scoring table search of `inferForeignKeys` step 3: strictly
greater scores replace, so the first table attaining the maximum wins. -/
def bestCand (o : InferOptions) (tname base : String)
    (cands : List (String × String)) : Option (String × ℚ) :=
  cands.foldl
    (fun best cand =>
      if !o.allowSelfReference && cand.1 == tname then best
      else
        let score := diceSim base cand.2
        if o.nameHintMinSim ≤ score &&
            (match best with | none => true | some b => decide (b.2 < score))
        then some (cand.1, score)
        else best)
    none

/-- The per-column body of the `inferForeignKeys` loop. -/
def perColFK (o : InferOptions) (normNames : List (String × String))
    (uniqueMap : List (String × List String)) (t : TableMeta) (c : ColumnMeta) :
    Option FKTuple :=
  let lc := c.name.jsLower
  if o.excludeBareId && lc == "id" then none
  else
    match fkM1 lc with
    | none => none
    | some m1 =>
        let base := normalize m1
        match bestCand o t.name base normNames with
        | none => none
        | some best =>
            match (lookupLast uniqueMap best.1).getD [] with
            | [] => none
            | u0 :: us =>
                let toColumn := if (u0 :: us).contains "id" then "id" else u0
                some ⟨t.name, c.name, best.1, toColumn⟩

/-- `inferForeignKeys(metas, opts)` (the pure candidate computation; the
caller-side option merge is modelled by passing full options).  The two
nested push-loops are the order-preserving `bind`/`filterMap`. -/
def inferForeignKeys (metas : List TableMeta) (o : InferOptions) : List FKTuple :=
  let normNames := metas.map (fun t => (t.name, normalize t.name))
  let uniqueMap := metas.map (fun t => (t.name, uniqueKeyCols t))
  metas.flatMap (fun t => t.columns.filterMap (perColFK o normNames uniqueMap t))

/-! ### The error-wrapping meta layer (part_012)

Store queries are modelled as `Except`-valued fields of a store record; a
raised JS exception is an `error` value.  `SqliteMetaError(message, cause)`
becomes the `sqliteMeta` constructor, chaining its cause. -/

/-- JS error values reaching this layer: a raw store/query error, or an
`SqliteMetaError` wrapping a message and its cause. -/
inductive JsErr where
  | store (msg : String)
  | sqliteMeta (msg : String) (cause : JsErr)
deriving DecidableEq

/-- `PRAGMA table_info` row (fields the code reads, plus `cid`/`dflt_value`
for shape). -/
structure PragmaTableInfoRow where
  cid : ℕ
  name : String
  type : String
  notnull : Bool
  dfltValue : Option String
  pk : Bool
deriving DecidableEq

/-- `PRAGMA index_list` row (the unread trailing fields are omitted). -/
structure PragmaIndexListRow where
  seq : ℕ
  name : String
  unique : Bool
deriving DecidableEq

/-- `PRAGMA index_info` row. -/
structure PragmaIndexInfoRow where
  seqno : ℕ
  cid : ℕ
  name : String
deriving DecidableEq

/-- The queryable store as the meta service sees it: each query either
returns rows or raises. -/
structure MetaStore where
  listTablesQ : Except JsErr (List String)
  tableInfoQ : String → Except JsErr (List PragmaTableInfoRow)
  indexListQ : String → Except JsErr (List PragmaIndexListRow)
  indexInfoQ : String → Except JsErr (List PragmaIndexInfoRow)

/-- Try-block body of `getUniqueColumns`. -/
def getUniqueColumnsBody (st : MetaStore) (table : String) : Except JsErr (List String) := do
  let idxList ← st.indexListQ table
  let uniques ← idxList.foldlM
    (fun (acc : List String) idx => do
      if idx.unique then
        let cols ← st.indexInfoQ idx.name
        match cols with
        | [c0] => if c0.name ≠ "" then pure (pushUnique acc c0.name) else pure acc
        | _ => pure acc
      else
        pure acc)
    []
  let ti ← st.tableInfoQ table
  pure (ti.foldl (fun acc c => if c.pk then pushUnique acc c.name else acc) uniques)

/-- `getUniqueColumns(table)`: any failure is rethrown as
`SqliteMetaError("getUniqueColumns failed: <table>", cause)`. -/
def getUniqueColumns (st : MetaStore) (table : String) : Except JsErr (List String) :=
  (getUniqueColumnsBody st table).mapError
    (fun e => JsErr.sqliteMeta ("getUniqueColumns failed: " ++ table) e)

/-- Try-block body of `getTablesMeta`. -/
def getTablesMetaBody (st : MetaStore) : Except JsErr (List TableMeta) := do
  let names ← st.listTablesQ
  names.foldlM
    (fun (out : List TableMeta) t => do
      let ti ← st.tableInfoQ t
      let uniques ← getUniqueColumns st t
      let cols := ti.map (fun r =>
        ColumnMeta.mk r.name (if r.type = "" then "TEXT" else r.type)
          (uniques.contains r.name && r.notnull) r.pk)
      pure (out ++ [TableMeta.mk t cols]))
    []

/-- `getTablesMeta()`: any failure (including an already-wrapped
`getUniqueColumns` failure) is rethrown as
`SqliteMetaError("getTablesMeta failed", cause)`. -/
def getTablesMeta (st : MetaStore) : Except JsErr (List TableMeta) :=
  (getTablesMetaBody st).mapError (fun e => JsErr.sqliteMeta "getTablesMeta failed" e)

/-- The relationship-inference pass as the ER feature runs it: build the
table metadata from the store, then infer foreign keys from it. -/
def inferRelationships (st : MetaStore) (o : InferOptions) : Except JsErr (List FKTuple) :=
  (getTablesMeta st).map (fun metas => inferForeignKeys metas o)

/-! ### `inferFkEdges` (dashboard analytics)

The dashboard variant queries a live SQLite database.  The database is
modelled concretely: a list of tables, each with its `PRAGMA table_info`
columns and its rows (cells are `Option String`, `none` = SQL NULL; value
comparison in the join is equality of stored values).  The coverage query

```
SELECT SUM(CASE WHEN p.pk IS NOT NULL THEN 1 ELSE 0 END) AS matched,
       COUNT(c.col) AS total
FROM child c LEFT JOIN parent p ON c.col = p.pk
WHERE c.col IS NOT NULL
```

counts, per non-null child value, all matching parent rows (`matched`) and
`max 1` joined rows (`total`, since an unmatched child row still produces
one LEFT JOIN row). -/

/-- A `PRAGMA table_info` column as `inferFkEdges` reads it. -/
structure PragCol where
  name : String
  pk : Bool
deriving DecidableEq

/-- A stored row: association list from column name to nullable value. -/
abbrev DbRow := List (String × Option String)

/-- One stored table. -/
structure DbTable where
  name : String
  cols : List PragCol
  rows : List DbRow
deriving DecidableEq

/-- The whole store. -/
abbrev Db := List DbTable

/-- Find a table by name. -/
def dbFind (db : Db) (t : String) : Option DbTable := db.find? (fun x => x.name == t)

/-- `PRAGMA table_info(t)` (empty for a missing table, as in SQLite). -/
def dbCols (db : Db) (t : String) : List PragCol := ((dbFind db t).map (fun x => x.cols)).getD []

/-- The rows of a table (empty for a missing table). -/
def dbRows (db : Db) (t : String) : List DbRow := ((dbFind db t).map (fun x => x.rows)).getD []

/-- The value of a column in a row; an absent column reads as NULL. -/
def rowVal (r : DbRow) (c : String) : Option String :=
  ((r.find? (fun p => p.1 == c)).map (fun p => p.2)).getD none

/-- Number of parent rows whose key column holds exactly `v`. -/
def matchCnt (db : Db) (parent pkCol v : String) : ℕ :=
  (dbRows db parent).countP (fun pr => rowVal pr pkCol == some v)

/-- The coverage query: `(matched, total)` over the child's non-null values. -/
def covQ (db : Db) (child col parent pkCol : String) : ℕ × ℕ :=
  let vals := (dbRows db child).filterMap (fun r => rowVal r col)
  ((vals.map (fun v => matchCnt db parent pkCol v)).sum,
   (vals.map (fun v => max 1 (matchCnt db parent pkCol v))).sum)

/-- Parent key resolution: the first `pk = 1` column of `PRAGMA table_info`,
else `"id"` is assumed. -/
def pkColOf (db : Db) (parent : String) : String :=
  (((dbCols db parent).find? (fun pc => pc.pk)).map (fun pc => pc.name)).getD "id"

/-- The dashboard `FkEdge` record; `coverage` is kept as an exact rational. -/
structure FkEdge where
  source : String
  target : String
  col : String
  coverage : ℚ
  matched : ℕ
  total : ℕ
deriving DecidableEq

/-- The parent loop of `inferFkEdges`: skip zero-total parents, accept the
first parent whose coverage reaches `MIN_COVERAGE = 0.8` and `break`;
otherwise keep scanning. -/
def pickParent (db : Db) (child col : String) : List String → Option FkEdge
  | [] => none
  | p :: ps =>
      let mt := covQ db child col p (pkColOf db p)
      if mt.2 = 0 then pickParent db child col ps
      else if Rat.divInt 8 10 ≤ Rat.divInt mt.1 mt.2 then
        some ⟨child, p, col, Rat.divInt mt.1 mt.2, mt.1, mt.2⟩
      else pickParent db child col ps

/-- Capture group of `col.match(/^(.*?)(?:_?id)$/i)`.  The lazy `.*?` takes
the shortest prefix whose remainder is `id` or `_id` (case-insensitively),
so the capture is everything before the trailing `id`, minus one further
trailing underscore when present. -/
def uiM1 (col : String) : Option String :=
  if col.jsLower.jsEndsWith "id" then
    let c := col.jsDropRight 2
    some (if c.jsEndsWith "_" then c.jsDropRight 1 else c)
  else none

/-- Character class of `replace(/[_\s]+$/g, "")`. -/
def isStripChar (c : Char) : Bool := c = '_' || c.isWhitespace

/-- Strip trailing underscores/whitespace. -/
def stripTrailing (s : String) : String :=
  String.mk (s.data.reverse.dropWhile isStripChar).reverse

/-- FK-candidate test and base-name extraction of `inferFkEdges`: regex
match, bare-`id` exclusion (`/^id$/i`), then
`m[1].replace(/[_\s]+$/g, "").toLowerCase()` with empty bases dropped. -/
def fkBase (col : String) : Option String :=
  match uiM1 col with
  | none => none
  | some m1 =>
      if col.jsLower == "id" then none
      else
        let base := (stripTrailing m1).jsLower
        if base = "" then none else some base

/-- `singularize`: strip one trailing `s`. -/
def singularize (s : String) : String := if s.jsEndsWith "s" then s.jsDropRight 1 else s

/-- `lowerToOrig.get(v)`: the Map is written in caller-list order, so a later
table with the same lowercase name wins. -/
def resolveTable (tables : List String) (v : String) : Option String :=
  tables.reverse.find? (fun n => n.jsLower == v)

/-- The parent-candidate list for one column: the variant set
`{base, singular, base+"s", singular+"s"}` in insertion order, resolved
against the caller-supplied table list. -/
def parentCandidates (tables : List String) (col : String) : List String :=
  match fkBase col with
  | none => []
  | some base =>
      let sg := singularize base
      (firstDedup [base, sg, base ++ "s", sg ++ "s"]).filterMap (resolveTable tables)

/-- The per-column body of `inferFkEdges`. -/
def perColumnEdge (db : Db) (tables : List String) (child col : String) : Option FkEdge :=
  pickParent db child col (parentCandidates tables col)

/-- The edge-collection loops of `inferFkEdges` (before sorting): the nested
push-loops as order-preserving `bind`/`filterMap`. -/
def collectFkEdges (db : Db) (tables : List String) : List FkEdge :=
  tables.flatMap (fun child =>
    (dbCols db child).filterMap (fun pc => perColumnEdge db tables child pc.name))

/-- The sort order `(a, b) => b.coverage - a.coverage || b.matched - a.matched`:
`a` may precede `b` iff `a` has larger coverage, or equal coverage and at
least as many matches. -/
def edgeLe (a b : FkEdge) : Prop :=
  b.coverage < a.coverage ∨ (a.coverage = b.coverage ∧ b.matched ≤ a.matched)

instance : DecidableRel edgeLe := fun a b => by
  unfold edgeLe
  exact inferInstance

/-- `inferFkEdges(tables)`: collect, sort by confidence (stable, like the JS
sort), keep the first 30. -/
def inferFkEdges (db : Db) (tables : List String) : List FkEdge :=
  (List.insertionSort edgeLe (collectFkEdges db tables)).take 30

/-! ### `importCsv` DDL construction (src/lib/sqlite.ts)

Only the schema-shaping part of `importCsv` is data (the actual SQL
execution is I/O): which columns the `CREATE TABLE` declares, whether a
surrogate `id INTEGER PRIMARY KEY` is prepended, and which columns the
`INSERT` targets.  Row cells are `Option String` (CSV parsing produces
strings; a missing key and a JS `null` both fail the `raw == null` test and
stringify only inside the uniqueness set, where the difference cannot
change the plan). -/

/-- A raw CSV cell as a `guessAffinity` input. -/
def jsValOf : Option String → JSVal
  | none => .jnull
  | some s => .jstr s

/-- `String(v)` for a cell (`String(null) = "null"`). -/
def strOfCell : Option String → String
  | none => "null"
  | some s => s

/-- The non-null, non-blank test of the `id` natural-key check. -/
def cellNonBlank (r : DbRow) (h : String) : Bool :=
  match rowVal r h with
  | some s => !(s.jsTrim == "")
  | none => false

/-- The computed import plan. -/
structure CsvPlan where
  headers : List String
  pk : Option String
  inferredCols : List (String × GuessOut)
  notNulls : List String
  uniques : List String
  uniqueClauses : List String
  columnNames : List String
  insertCols : List String
deriving DecidableEq

/-- `importCsv(table, rows)` up to DDL/insert-plan construction: headers from
the first row, affinity from a 1000-row sample, NOT NULL/UNIQUE from all
rows, the natural `id` primary-key check, and the surrogate-id decision. -/
def importPlan (rows : List DbRow) : Option CsvPlan :=
  match rows with
  | [] => none
  | r0 :: _ =>
      let headers := r0.map (fun p => p.1)
      if headers.isEmpty then none
      else
        let sample := rows.take 1000
        let inferred := headers.map
          (fun h => (h, guessAffinity (sample.map (fun r => jsValOf (rowVal r h)))))
        let notNulls := headers.filter (fun h => rows.all (fun r => cellNonBlank r h))
        let uniquesL := headers.filter (fun h =>
          let vals := rows.filterMap (fun r =>
            match rowVal r h with
            | some s => if s.jsTrim == "" then none else some s.jsTrim
            | none => none)
          decide vals.Nodup && !vals.isEmpty)
        let pkOk := headers.contains "id" &&
          rows.all (fun r => cellNonBlank r "id") &&
          decide (rows.map (fun r => strOfCell (rowVal r "id"))).Nodup
        let pk : Option String := if pkOk then some "id" else none
        let columnNames := if pkOk then headers else "id" :: headers
        let uniqueClauses := uniquesL.filter (fun u => !(some u == pk))
        let insertCols := if pkOk then headers else "id" :: headers
        some ⟨headers, pk, inferred, notNulls, uniquesL, uniqueClauses, columnNames, insertCols⟩

/-! ### Specification-side helper predicates

These restate conditions in the spec's vocabulary; the theorems relate them
to the embedded code. -/

/-- The trimmed non-empty values of a column, the spec's denominator for the
uniqueness check. -/
def nonEmptyTrimmed (values : List String) : List String :=
  (values.map String.jsTrim).filter (fun s => !(s == ""))

/-- A `guessAffinity` input that is counted in `nn` (not null/undefined and
not the empty string). -/
def gNonEmpty : JSVal → Bool
  | .jnull => false
  | .jstr s => !(s == "")
  | .jnum _ => true

/-- "The value matches the integer pattern" for a `guessAffinity` input:
null-likes vacuously, strings via `intRe` on the trimmed lower-cased text,
numbers via integrality. -/
def intishB : JSVal → Bool
  | .jnull => true
  | .jstr s => (s == "") || isIntStr (s.jsTrim.jsLower)
  | .jnum x => x.den == 1

/-- "The value is not a boolean token" (only strings can be). -/
def noBoolB : JSVal → Bool
  | .jstr s => !isBoolTok (s.jsTrim.jsLower)
  | _ => true

/-- Acceptance test of the `inferFkEdges` parent loop: non-zero total and
coverage at least `0.8`. -/
def acceptsParent (db : Db) (child col p : String) : Bool :=
  let mt := covQ db child col p (pkColOf db p)
  !(mt.2 == 0) && decide (Rat.divInt 8 10 ≤ Rat.divInt mt.1 mt.2)

/-- The edge `inferFkEdges` builds for an accepted parent. -/
def edgeFor (db : Db) (child col p : String) : FkEdge :=
  let mt := covQ db child col p (pkColOf db p)
  ⟨child, p, col, Rat.divInt mt.1 mt.2, mt.1, mt.2⟩

/-- Well-formed store: within each table, column names are distinct (true of
any real SQLite schema). -/
def dbWF (db : Db) : Prop :=
  ∀ t ∈ db, (t.cols.map (fun c => c.name)).Nodup

instance : DecidablePred dbWF := fun db => by
  unfold dbWF
  exact inferInstance

/-! ### Concrete fixtures used by counterexamples and witnesses -/

/-- A store with tables `orders(id, user_id)`, `user(id)` and `users(id)`:
`orders.user_id` runs 1..5, `user.id` covers 1..4 (coverage 4/5) and
`users.id` covers 1..5 (coverage 1). -/
def demoDb : Db :=
  [⟨"orders", [⟨"id", true⟩, ⟨"user_id", false⟩],
     [[("id", some "1"), ("user_id", some "1")],
      [("id", some "2"), ("user_id", some "2")],
      [("id", some "3"), ("user_id", some "3")],
      [("id", some "4"), ("user_id", some "4")],
      [("id", some "5"), ("user_id", some "5")]]⟩,
   ⟨"user", [⟨"id", true⟩],
     [[("id", some "1")], [("id", some "2")], [("id", some "3")], [("id", some "4")]]⟩,
   ⟨"users", [⟨"id", true⟩],
     [[("id", some "1")], [("id", some "2")], [("id", some "3")], [("id", some "4")],
      [("id", some "5")]]⟩]

/-- The caller-supplied table list for `demoDb`. -/
def demoTables : List String := ["orders", "user", "users"]

/-- The single edge `inferFkEdges` produces on `demoDb`. -/
def demoEdge : FkEdge := ⟨"orders", "user", "user_id", Rat.divInt 4 5, 4, 5⟩

/-- A store whose `listTables` query fails. -/
def errStore : MetaStore :=
  ⟨Except.error (JsErr.store "db unavailable"),
   fun _ => Except.ok [], fun _ => Except.ok [], fun _ => Except.ok []⟩

/-- A healthy one-table store (table `roles` with an integer primary key
`id`), on which every query the pass issues succeeds. -/
def okStore : MetaStore :=
  ⟨Except.ok ["roles"],
   fun _ => Except.ok [⟨0, "id", "INTEGER", true, none, true⟩],
   fun _ => Except.ok [],
   fun _ => Except.ok []⟩

/-- A store on which listing succeeds but the per-table `PRAGMA table_info`
query fails: the "table dropped between listing and querying" scenario. -/
def dropStore : MetaStore :=
  ⟨Except.ok ["roles"],
   fun _ => Except.error (JsErr.store "no such table: roles"),
   fun _ => Except.ok [],
   fun _ => Except.ok []⟩

/-- Scenario A input for `inferColumns`: one column `c` with values
`"1","2","3",""`. -/
def scenarioRows : List CsvRow :=
  [[("c", some "1")], [("c", some "2")], [("c", some "3")], [("c", some "")]]

/-- Table `user` with both a `user_id` and an `id` column, each unique,
non-null and integer-valued. -/
def rowsA : List Row :=
  [[("user_id", "3"), ("id", "3")], [("user_id", "4"), ("id", "4")]]

/-- Table `t` whose only column `id` is non-null and integer but repeats. -/
def rowsB : List Row := [[("id", "2")], [("id", "2")]]

/-- Twenty rows whose `flag` column is 19 times `"1"` and once `"5"`:
boolean-token ratio 0.95, so `inferSchema` marks it `INTEGER` + `isBool`. -/
def rows20 : List Row :=
  (List.replicate 19 [("flag", "1")]) ++ [[("flag", "5")]]

/-- The profile `inferSchema` computes for the `flag` column of `rows20`. -/
def boolFlagCol : InferredCol := ⟨"flag", .INTEGER, true, false, true, false⟩

/-- CSV rows with a duplicated `id` value (the natural key check fails). -/
def dupIdRows : List DbRow := [[("id", some "1")], [("id", some "1")]]

/-- CSV rows without any `id` header. -/
def freshRows : List DbRow := [[("a", some "1")]]

/-- The plan `importPlan` computes for `freshRows`. -/
def freshPlan : CsvPlan :=
  ⟨["a"], none, [("a", ⟨.INTEGER, true, false⟩)], ["a"], ["a"], ["a"],
   ["id", "a"], ["id", "a"]⟩

/-! ## Supporting lemmas -/

lemma head_filter_eq_find {α : Type} (p : α → Bool) (l : List α) :
    (l.filter p).head? = l.find? p := by
  induction l with
  | nil => rfl
  | cons a l ih =>
      by_cases h : p a <;> simp [List.filter_cons, List.find?_cons, h, ih]

lemma cStats_go (values : List String) : ∀ st : ColStats,
    (values.foldl cStep st).nonNull = st.nonNull + (nonEmptyTrimmed values).length ∧
    (values.foldl cStep st).seen = st.seen ∪ (nonEmptyTrimmed values).toFinset := by
  induction values with
  | nil => intro st; simp [nonEmptyTrimmed]
  | cons v vs ih =>
      intro st
      rw [List.foldl_cons]
      by_cases h : v.jsTrim = ""
      · have hstep : cStep st v = { st with empty := st.empty + 1 } := by
          simp [cStep, h]
        have h3 : nonEmptyTrimmed (v :: vs) = nonEmptyTrimmed vs := by
          simp [nonEmptyTrimmed, h]
        rw [hstep, h3]
        exact ih _
      · have hn : (cStep st v).nonNull = st.nonNull + 1 := by simp [cStep, h]
        have hs : (cStep st v).seen = insert v.jsTrim st.seen := by simp [cStep, h]
        have h3 : nonEmptyTrimmed (v :: vs) = v.jsTrim :: nonEmptyTrimmed vs := by
          simp [nonEmptyTrimmed, h]
        obtain ⟨ih1, ih2⟩ := ih (cStep st v)
        constructor
        · rw [ih1, hn, h3]
          simp [List.length_cons]
          omega
        · rw [ih2, hs, h3]
          simp [List.toFinset_cons, Finset.union_insert, Finset.insert_union]

lemma cStats_nonNull (values : List String) :
    (cStats values).nonNull = (nonEmptyTrimmed values).length := by
  have h := (cStats_go values ⟨0, 0, 0, 0, 0, 0, ∅⟩).1
  simpa [cStats] using h

lemma cStats_seen (values : List String) :
    (cStats values).seen = (nonEmptyTrimmed values).toFinset := by
  have h := (cStats_go values ⟨0, 0, 0, 0, 0, 0, ∅⟩).2
  simpa [cStats] using h

lemma cStats_asInt_go (values : List String)
    (hv : ∀ s ∈ values, s.jsTrim = "" ∨ isIntStr s.jsTrim = true) : ∀ st : ColStats,
    (values.foldl cStep st).asInt = st.asInt + (nonEmptyTrimmed values).length := by
  induction values with
  | nil => intro st; simp [nonEmptyTrimmed]
  | cons v vs ih =>
      intro st
      rw [List.foldl_cons]
      have hvs : ∀ s ∈ vs, s.jsTrim = "" ∨ isIntStr s.jsTrim = true := by
        intro s hsmem; exact hv s (List.mem_cons_of_mem v hsmem)
      by_cases h : v.jsTrim = ""
      · have hstep : cStep st v = { st with empty := st.empty + 1 } := by simp [cStep, h]
        have h3 : nonEmptyTrimmed (v :: vs) = nonEmptyTrimmed vs := by
          simp [nonEmptyTrimmed, h]
        rw [hstep, h3]
        exact ih hvs _
      · have hint : isIntStr v.jsTrim = true := by
          rcases hv v (List.mem_cons_self v vs) with h' | h'
          · exact absurd h' h
          · exact h'
        have ha : (cStep st v).asInt = st.asInt + 1 := by simp [cStep, h, hint]
        have h3 : nonEmptyTrimmed (v :: vs) = v.jsTrim :: nonEmptyTrimmed vs := by
          simp [nonEmptyTrimmed, h]
        rw [ih hvs, ha, h3]
        simp [List.length_cons]
        omega

lemma gStats_go (values : List JSVal)
    (h1 : ∀ v ∈ values, intishB v = true) (h2 : ∀ v ∈ values, noBoolB v = true) :
    ∀ st : GStats,
      (values.foldl gStep st).nn = st.nn + values.countP gNonEmpty ∧
      (values.foldl gStep st).ints = st.ints + values.countP gNonEmpty ∧
      (values.foldl gStep st).bools = st.bools := by
  induction values with
  | nil => intro st; simp
  | cons v vs ih =>
      intro st
      have hv1 := h1 v (List.mem_cons_self v vs)
      have hv2 := h2 v (List.mem_cons_self v vs)
      have hr1 : ∀ w ∈ vs, intishB w = true := fun w hw => h1 w (List.mem_cons_of_mem v hw)
      have hr2 : ∀ w ∈ vs, noBoolB w = true := fun w hw => h2 w (List.mem_cons_of_mem v hw)
      rw [List.foldl_cons, List.countP_cons]
      obtain ⟨ihn, ihi, ihb⟩ := ih hr1 hr2 (gStep st v)
      match v with
      | .jnull =>
          refine ⟨?_, ?_, ?_⟩ <;> simp [gStep, gNonEmpty] at ihn ihi ihb ⊢ <;>
            first
            | (rw [ihn])
            | (rw [ihi])
            | (rw [ihb])
      | .jnum x =>
          have hden : x.den = 1 := by simpa [intishB] using hv1
          refine ⟨?_, ?_, ?_⟩
          · rw [ihn]; simp [gStep, gNonEmpty]; omega
          · rw [ihi]; simp [gStep, hden, gNonEmpty]; omega
          · rw [ihb]; simp [gStep]
      | .jstr s =>
          by_cases hse : s = ""
          · subst hse
            refine ⟨?_, ?_, ?_⟩
            · rw [ihn]; simp [gStep, gNonEmpty]
            · rw [ihi]; simp [gStep, gNonEmpty]
            · rw [ihb]; simp [gStep]
          · have hint : isIntStr (s.jsTrim.jsLower) = true := by
              rcases (by simpa [intishB] using hv1 : s = "" ∨ isIntStr (s.jsTrim.jsLower) = true) with
                h' | h'
              · exact absurd h' hse
              · exact h'
            have hnb : isBoolTok (s.jsTrim.jsLower) = false := by
              simpa [noBoolB] using hv2
            have hte : ¬(s.jsTrim.jsLower = "") := by
              intro he; rw [he] at hint; exact absurd hint (by decide)
            refine ⟨?_, ?_, ?_⟩
            · rw [ihn]; simp [gStep, hse, hte, gNonEmpty]; omega
            · rw [ihi]; simp [gStep, hse, hte, hnb, hint, gNonEmpty]; omega
            · rw [ihb]; simp [gStep, hse, hte, hnb]

/-! ## Claim theorems -/

/-- C8: the bigram Sorensen-Dice similarity used for table-name matching is
symmetric in its two arguments. -/
theorem diceSim_symm (a b : String) : diceSim a b = diceSim b a := by
  unfold diceSim
  rw [Finset.inter_comm, Nat.add_comm ((bigrams a).card)]

/-- C3 counterexample: on `["1", "2"]` every value matches the integer
pattern, yet `guessAffinity` answers TEXT: `"1"` is consumed by the
boolean-token branch (ratio 1/2 < 0.95), so `ints = 1 ≠ nn = 2` and every
cascade test fails.  The sibling `inferSchema` path counts independently and
does return INTEGER. -/
theorem guessAffinity_bool_int_mix_text :
    guessAffinity [.jstr "1", .jstr "2"] = ⟨.TEXT, false, false⟩ ∧
    isIntStr "1" = true ∧ isIntStr "2" = true ∧
    (profileCol "c" ["1", "2"]).affinity = .INTEGER := by decide

/-- C3 amended: all-integer inputs yield INTEGER (1) in `guessAffinity` when
additionally no non-empty value is a boolean token, (2) in `guessAffinity`
whenever the boolean-token ratio reaches 0.95 (then via the boolean branch),
and (3) in `inferSchema`'s profiler unconditionally; the non-empty count
must be positive. -/
theorem affinity_integer_amended :
    (∀ values : List JSVal,
        (∀ v ∈ values, intishB v = true) → (∀ v ∈ values, noBoolB v = true) →
        0 < (gStats values).nn →
        (guessAffinity values).affinity = .INTEGER) ∧
    (∀ values : List JSVal,
        Rat.divInt 95 100 ≤ Rat.divInt (gStats values).bools (gStats values).nn →
        (guessAffinity values).affinity = .INTEGER ∧ (guessAffinity values).isBool = true) ∧
    (∀ (hname : String) (values : List String),
        (∀ s ∈ values, s.jsTrim = "" ∨ isIntStr s.jsTrim = true) →
        0 < (cStats values).nonNull →
        (profileCol hname values).affinity = .INTEGER) := by
  refine ⟨?_, ?_, ?_⟩
  · intro values h1 h2 hnn
    obtain ⟨hn, hi, hb⟩ := gStats_go values h1 h2 ⟨0, 0, 0, 0, 0⟩
    have hn' : (gStats values).nn = values.countP gNonEmpty := by simpa [gStats] using hn
    have hi' : (gStats values).ints = values.countP gNonEmpty := by simpa [gStats] using hi
    have hb' : (gStats values).bools = 0 := by simpa [gStats] using hb
    rw [hn'] at hnn
    have hres : guessAffinity values = ⟨.INTEGER, false, false⟩ := by
      simp only [guessAffinity]
      rw [hn', hi', hb']
      rw [if_neg (by omega)]
      rw [if_neg (by rw [Nat.cast_zero, Rat.zero_divInt]; decide)]
      rw [if_pos rfl]
    rw [hres]
  · intro values hr
    by_cases hnn : (gStats values).nn = 0
    · exfalso
      rw [hnn] at hr
      rw [Nat.cast_zero, Rat.divInt_zero] at hr
      exact absurd hr (by decide)
    · have hres : guessAffinity values = ⟨.INTEGER, true, false⟩ := by
        simp only [guessAffinity]
        rw [if_neg hnn, if_pos hr]
      rw [hres]
      exact ⟨rfl, rfl⟩
  · intro hname values hv hnn
    have hnn' : (cStats values).nonNull = (nonEmptyTrimmed values).length := cStats_nonNull values
    have hai : (cStats values).asInt = (nonEmptyTrimmed values).length := by
      have h := cStats_asInt_go values hv ⟨0, 0, 0, 0, 0, 0, ∅⟩
      simpa [cStats] using h
    simp only [profileCol]
    rw [if_neg (by omega)]
    by_cases hb : Rat.divInt 95 100 ≤ Rat.divInt (cStats values).asBool (cStats values).nonNull
    · rw [if_pos hb]
    · rw [if_neg hb, if_pos (by rw [hai, hnn'])]

/-- C3 amended, witness at `["3", "4"]`. -/
theorem affinity_integer_amended_witness :
    (guessAffinity [.jstr "3", .jstr "4"]).affinity = .INTEGER :=
  affinity_integer_amended.1 [.jstr "3", .jstr "4"] (by decide) (by decide) (by decide)

/-- C2 counterexample: on the claim's own input `["1","2","3",""]` the
csvUtils profiler `inferColumns` reports `nullRate = 1/4` but
`unique = false` — its `!hasNull` conjunct lets the empty value disqualify
uniqueness, contradicting `unique = (nonEmpty > 0) ∧ (distinct = nonEmpty)`
and the claimed `unique = true`. -/
theorem inferColumns_empty_disqualifies_unique :
    inferColumns scenarioRows ["c"] = [⟨"c", .int, Rat.divInt 1 4, false⟩] := by decide

/-- C2 amended: the claimed equivalence `unique = (nonEmptyCount > 0 ∧
distinct-trimmed = nonEmptyCount)` holds for the `inferSchema` profiler
(empty values do NOT disqualify there, witness the scenario input), while
`inferColumns` on the scenario reports `nullRate = 1/4` with
`unique = false` because any empty value disqualifies. -/
theorem unique_profile_semantics :
    (∀ (hname : String) (values : List String),
        ((profileCol hname values).unique = true ↔
          (0 < (nonEmptyTrimmed values).length ∧
            (nonEmptyTrimmed values).dedup.length = (nonEmptyTrimmed values).length))) ∧
    (inferColumns scenarioRows ["c"]).map (fun c => (c.nullRate, c.unique)) =
      [((Rat.divInt 1 4 : ℚ), false)] ∧
    (profileCol "c" ["1", "2", "3", ""]).unique = true := by
  refine ⟨?_, by decide, by decide⟩
  intro hname values
  simp only [profileCol]
  simp [Bool.and_eq_true, decide_eq_true_eq, cStats_nonNull, cStats_seen, List.card_toFinset]

/-- C7 counterexample: `inferSchema` on 19 values `"1"` and one `"5"` infers
`affinity = INTEGER` with `isBool = true` (boolean ratio exactly 0.95); the
raw value `"5"` of that column then coerces to `NULL`, which does not parse
back to the integer 5 — the round-trip fails for a column whose profile has
`affinity = INTEGER`. -/
theorem toSqlLiteral_bool_roundtrip_fails :
    (inferSchema rows20 ["flag"] "t").cols = [boolFlagCol] ∧
    boolFlagCol.affinity = .INTEGER ∧
    (∃ r ∈ rows20, getCell r "flag" = "5") ∧
    isIntStr "5" = true ∧ intVal "5" = 5 ∧
    toSqlLiteral (some "5") boolFlagCol = "NULL" ∧
    parseIntLit "NULL" = none := by decide

/-- C7 amended: for a column profile with `affinity = INTEGER` and
`isBool = false`, any raw value whose trimmed text matches the integer
pattern passes through `toSqlLiteral` unquoted, and parsing the produced
literal back as an integer returns exactly the value's integer value. -/
theorem toSqlLiteral_integer_roundtrip :
    ∀ (col : InferredCol) (raw : String),
      col.affinity = .INTEGER → col.isBool = false → isIntStr raw.jsTrim = true →
      toSqlLiteral (some raw) col = raw.jsTrim ∧
      parseIntLit (toSqlLiteral (some raw) col) = some (intVal raw.jsTrim) := by
  intro col raw h1 h2 h3
  have hne : ¬(raw.jsTrim = "") := by
    intro he
    rw [he] at h3
    exact absurd h3 (by decide)
  have hlit : toSqlLiteral (some raw) col = raw.jsTrim := by
    simp [toSqlLiteral, hne, h2, h1, h3]
  refine ⟨hlit, ?_⟩
  rw [hlit]
  simp [parseIntLit, h3]

/-- C7 amended, witness at `" 042 "` in a plain INTEGER column. -/
theorem toSqlLiteral_integer_roundtrip_witness :
    toSqlLiteral (some " 042 ") ⟨"x", .INTEGER, true, true, false, false⟩ = " 042 ".jsTrim ∧
    parseIntLit (toSqlLiteral (some " 042 ") ⟨"x", .INTEGER, true, true, false, false⟩) =
      some (intVal " 042 ".jsTrim) :=
  toSqlLiteral_integer_roundtrip ⟨"x", .INTEGER, true, true, false, false⟩ " 042 "
    rfl rfl (by decide)

/-- C4 counterexample: with headers `["user_id", "id"]` on table `user`,
both columns qualify, and the selector returns the first one in column
order — `user_id` — not the claimed priority pick `id`; and on `rowsB` the
fallback selects the duplicated `id` column as primary key even though its
profile has `unique = false`. -/
theorem inferSchema_pk_not_id_priority :
    (inferSchema rowsA ["user_id", "id"] "user").pk = some "user_id" ∧
    (inferSchema rowsA ["user_id", "id"] "user").cols =
      [⟨"user_id", .INTEGER, true, true, false, false⟩,
       ⟨"id", .INTEGER, true, true, false, false⟩] ∧
    (inferSchema rowsB ["id"] "t").pk = some "id" ∧
    (inferSchema rowsB ["id"] "t").cols = [⟨"id", .INTEGER, true, false, false, false⟩] := by
  decide

/-- C4 amended: the selector takes the FIRST column in input order that is
id-like (`id` or `<table>_id`) and satisfies not-null, unique and
INTEGER-or-TEXT; failing that, it falls back to a column named `id` that is
not-null and INTEGER — without requiring uniqueness.  Any selected key
therefore satisfies one of those two bundles. -/
theorem inferSchema_pk_selection_amended :
    ∀ (rows : List Row) (headers : List String) (table : String),
      ((inferSchema rows headers table).pk =
        match (inferSchema rows headers table).cols.find? (pkQual table) with
        | some c => some c.name
        | none => ((inferSchema rows headers table).cols.find? pkFallback).map
            (fun c => c.name)) ∧
      (∀ p, (inferSchema rows headers table).pk = some p →
        ∃ c ∈ (inferSchema rows headers table).cols, c.name = p ∧ c.notNull = true ∧
          ((c.unique = true ∧ (c.affinity = .INTEGER ∨ c.affinity = .TEXT) ∧
             (c.name.jsLower = "id" ∨ c.name.jsLower = table.jsLower ++ "_id")) ∨
           (c.name.jsLower = "id" ∧ c.affinity = .INTEGER))) := by
  intro rows headers table
  have hpk : (inferSchema rows headers table).pk =
      match (inferSchema rows headers table).cols.find? (pkQual table) with
      | some c => some c.name
      | none => ((inferSchema rows headers table).cols.find? pkFallback).map
          (fun c => c.name) := by
    simp only [inferSchema]
    rw [List.head?_map, head_filter_eq_find]
    cases h : (headers.map fun h => profileCol h (rows.map fun r => getCell r h)).find?
        (pkQual table) <;> simp
  refine ⟨hpk, ?_⟩
  intro p hp
  rw [hpk] at hp
  cases hf : (inferSchema rows headers table).cols.find? (pkQual table) with
  | some c =>
      rw [hf] at hp
      simp only [Option.some.injEq] at hp
      refine ⟨c, List.mem_of_find?_eq_some hf, hp, ?_⟩
      have hq := List.find?_some hf
      simp only [pkQual, Bool.and_eq_true, Bool.or_eq_true, beq_iff_eq] at hq
      exact ⟨hq.1.2, Or.inl ⟨hq.1.1.2, hq.2, hq.1.1.1⟩⟩
  | none =>
      rw [hf] at hp
      cases hf2 : (inferSchema rows headers table).cols.find? pkFallback with
      | none => rw [hf2] at hp; simp at hp
      | some c =>
          rw [hf2] at hp
          simp only [Option.map_some', Option.some.injEq] at hp
          refine ⟨c, List.mem_of_find?_eq_some hf2, hp, ?_⟩
          have hq := List.find?_some hf2
          simp only [pkFallback, Bool.and_eq_true, beq_iff_eq] at hq
          exact ⟨hq.1.2, Or.inr ⟨hq.1.1, hq.2⟩⟩

/-- C4 amended, witness: on `rowsB` the fallback fires and selects the
non-unique `id` column. -/
theorem inferSchema_pk_selection_amended_witness :
    ∃ c ∈ (inferSchema rowsB ["id"] "t").cols, c.name = "id" ∧ c.notNull = true ∧
      ((c.unique = true ∧ (c.affinity = .INTEGER ∨ c.affinity = .TEXT) ∧
         (c.name.jsLower = "id" ∨ c.name.jsLower = ("t" : String).jsLower ++ "_id")) ∨
       (c.name.jsLower = "id" ∧ c.affinity = .INTEGER)) :=
  (inferSchema_pk_selection_amended rowsB ["id"] "t").2 "id" (by decide)

/-! ### Tracing lemmas for `inferFkEdges` and `inferForeignKeys` -/

lemma pickParent_eq_find (db : Db) (child col : String) :
    ∀ ps : List String, pickParent db child col ps =
      (ps.find? (acceptsParent db child col)).map (edgeFor db child col) := by
  intro ps
  induction ps with
  | nil => rfl
  | cons p ps ih =>
      cases hacc : acceptsParent db child col p with
      | false =>
          have hf : List.find? (acceptsParent db child col) (p :: ps) =
              List.find? (acceptsParent db child col) ps := by
            simp [List.find?_cons, hacc]
          rw [hf, ← ih]
          simp only [pickParent]
          by_cases h0 : (covQ db child col p (pkColOf db p)).2 = 0
          · rw [if_pos h0]
          · rw [if_neg h0]
            have h1 : ¬(Rat.divInt 8 10 ≤ Rat.divInt (covQ db child col p (pkColOf db p)).1
                (covQ db child col p (pkColOf db p)).2) := by
              intro hle
              have htrue : acceptsParent db child col p = true := by
                unfold acceptsParent
                rw [Bool.and_eq_true, decide_eq_true_eq]
                exact ⟨by simpa using h0, hle⟩
              rw [htrue] at hacc
              exact Bool.noConfusion hacc
            rw [if_neg h1]
      | true =>
          have hf : List.find? (acceptsParent db child col) (p :: ps) = some p := by
            simp [List.find?_cons, hacc]
          rw [hf]
          simp only [Option.map_some']
          have hacc' := hacc
          simp only [acceptsParent, Bool.and_eq_true, Bool.not_eq_true', beq_eq_false_iff_ne,
            decide_eq_true_eq] at hacc'
          simp only [pickParent]
          rw [if_neg hacc'.1, if_pos hacc'.2]
          rfl

lemma pickParent_some {db : Db} {child col : String} {ps : List String} {e : FkEdge}
    (h : pickParent db child col ps = some e) :
    ∃ p ∈ ps, acceptsParent db child col p = true ∧ e = edgeFor db child col p := by
  rw [pickParent_eq_find] at h
  cases hf : ps.find? (acceptsParent db child col) with
  | none => rw [hf] at h; simp at h
  | some p =>
      rw [hf] at h
      simp only [Option.map_some', Option.some.injEq] at h
      exact ⟨p, List.mem_of_find?_eq_some hf, List.find?_some hf, h.symm⟩

lemma perColumnEdge_some {db : Db} {tables : List String} {child col : String} {e : FkEdge}
    (h : perColumnEdge db tables child col = some e) :
    e.source = child ∧ e.col = col ∧ ∃ b, fkBase col = some b := by
  unfold perColumnEdge at h
  obtain ⟨p, hp, hacc, hedge⟩ := pickParent_some h
  subst hedge
  refine ⟨rfl, rfl, ?_⟩
  cases hb : fkBase col with
  | none =>
      rw [show parentCandidates tables col = [] from by simp [parentCandidates, hb]] at hp
      simp at hp
  | some b => exact ⟨b, rfl⟩

lemma mem_collectFkEdges {db : Db} {tables : List String} {e : FkEdge}
    (h : e ∈ collectFkEdges db tables) :
    ∃ child ∈ tables, ∃ pc ∈ dbCols db child,
      perColumnEdge db tables child pc.name = some e := by
  unfold collectFkEdges at h
  rw [List.mem_flatMap] at h
  obtain ⟨child, hchild, hin⟩ := h
  rw [List.mem_filterMap] at hin
  obtain ⟨pc, hpc, hgen⟩ := hin
  exact ⟨child, hchild, pc, hpc, hgen⟩

lemma mem_inferFkEdges {db : Db} {tables : List String} {e : FkEdge}
    (h : e ∈ inferFkEdges db tables) : e ∈ collectFkEdges db tables := by
  unfold inferFkEdges at h
  have h1 := List.take_subset 30 _ h
  exact ((List.perm_insertionSort edgeLe _).mem_iff).mp h1

lemma fkBase_some {col b : String} (h : fkBase col = some b) :
    col.jsLower.jsEndsWith "id" = true ∧ ¬(col.jsLower = "id") := by
  unfold fkBase at h
  cases hu : uiM1 col with
  | none => rw [hu] at h; exact Option.noConfusion h
  | some m1 =>
      rw [hu] at h
      dsimp only at h
      constructor
      · unfold uiM1 at hu
        by_cases h1 : col.jsLower.jsEndsWith "id"
        · exact h1
        · rw [if_neg h1] at hu
          exact Option.noConfusion hu
      · intro h2
        rw [if_pos (beq_iff_eq.mpr h2)] at h
        exact Option.noConfusion h

lemma fkM1_some {lc m1 : String} (h : fkM1 lc = some m1) : lc.jsEndsWith "_id" = true := by
  unfold fkM1 at h
  by_cases h1 : lc.jsEndsWith "_id" && decide (3 < lc.length)
  · exact (Bool.and_eq_true .. |>.mp h1).1
  · rw [if_neg h1] at h
    exact absurd h (by simp)

lemma perColFK_some {o : InferOptions} {normNames : List (String × String)}
    {uniqueMap : List (String × List String)} {t : TableMeta} {c : ColumnMeta} {fk : FKTuple}
    (h : perColFK o normNames uniqueMap t c = some fk) :
    fk.fromTable = t.name ∧ fk.fromColumn = c.name ∧
      c.name.jsLower.jsEndsWith "_id" = true := by
  unfold perColFK at h
  dsimp only at h
  by_cases h1 : (o.excludeBareId && (c.name.jsLower == "id")) = true
  · rw [if_pos h1] at h
    exact Option.noConfusion h
  · rw [if_neg h1] at h
    cases h2 : fkM1 c.name.jsLower with
    | none =>
        rw [h2] at h
        exact Option.noConfusion h
    | some m1 =>
        rw [h2] at h
        dsimp only at h
        cases h3 : bestCand o t.name (normalize m1) normNames with
        | none =>
            rw [h3] at h
            exact Option.noConfusion h
        | some best =>
            rw [h3] at h
            dsimp only at h
            cases h4 : (lookupLast uniqueMap best.1).getD [] with
            | nil =>
                rw [h4] at h
                exact Option.noConfusion h
            | cons u0 us =>
                rw [h4] at h
                dsimp only at h
                rw [← Option.some.inj h]
                exact ⟨rfl, rfl, fkM1_some h2⟩

/-- C5: only `id`-suffixed columns become FK candidates.  In `inferFkEdges`
every emitted edge's child column ends in `id` (case-insensitively, with or
without underscore) and is never the bare `id`; in `inferForeignKeys` the
lowercased column name must end in the literal `_id`.  Consequently a column
named `category` can never produce a candidate in either path, and bare `id`
is skipped (in `inferForeignKeys` even independently of `excludeBareId`,
since `id` cannot match `^(.+)_id$`). -/
theorem fk_candidate_suffix :
    (∀ (db : Db) (tables : List String) (e : FkEdge), e ∈ inferFkEdges db tables →
        e.col.jsLower.jsEndsWith "id" = true ∧ ¬(e.col.jsLower = "id") ∧
          e.col ≠ "category") ∧
    (∀ (metas : List TableMeta) (o : InferOptions) (fk : FKTuple),
        fk ∈ inferForeignKeys metas o →
        fk.fromColumn.jsLower.jsEndsWith "_id" = true ∧ fk.fromColumn ≠ "category" ∧
          (o.excludeBareId = true → ¬(fk.fromColumn.jsLower = "id"))) := by
  constructor
  · intro db tables e hmem
    obtain ⟨child, _, pc, _, hper⟩ := mem_collectFkEdges (mem_inferFkEdges hmem)
    obtain ⟨hsrc, hcol, b, hb⟩ := perColumnEdge_some hper
    obtain ⟨hend, hid⟩ := fkBase_some hb
    rw [hcol]
    refine ⟨hend, hid, ?_⟩
    intro hcat
    rw [hcat] at hend
    exact absurd hend (by decide)
  · intro metas o fk hmem
    simp only [inferForeignKeys, List.mem_flatMap, List.mem_filterMap] at hmem
    obtain ⟨t, ht, c, hc, hper⟩ := hmem
    obtain ⟨hft, hfc, hend⟩ := perColFK_some hper
    rw [hfc]
    refine ⟨hend, ?_, ?_⟩
    · intro hcat
      rw [hcat] at hend
      exact absurd hend (by decide)
    · intro _ hid
      rw [hid] at hend
      exact absurd hend (by decide)

/-- C5 witness: the concrete edge of `demoDb` exercises the suffix
invariant. -/
theorem fk_candidate_suffix_witness :
    demoEdge.col.jsLower.jsEndsWith "id" = true ∧ ¬(demoEdge.col.jsLower = "id") ∧
      demoEdge.col ≠ "category" :=
  fk_candidate_suffix.1 demoDb demoTables demoEdge (by decide)

lemma covQ_le (db : Db) (child col parent pkCol : String) :
    (covQ db child col parent pkCol).1 ≤ (covQ db child col parent pkCol).2 := by
  unfold covQ
  dsimp only
  apply List.sum_le_sum
  intro v _
  exact le_max_right 1 (matchCnt db parent pkCol v)

/-- C9: every edge produced by `inferFkEdges` satisfies the
`RelationshipCandidate` invariants: a positive total, `matched ≤ total`, and
`coverage = matched / total` lying in `[0, 1]`; zero-total candidates are
never emitted (the loop `continue`s on them). -/
theorem fkEdge_invariants :
    ∀ (db : Db) (tables : List String) (e : FkEdge), e ∈ inferFkEdges db tables →
      0 < e.total ∧ e.matched ≤ e.total ∧
      e.coverage = (e.matched : ℚ) / (e.total : ℚ) ∧
      0 ≤ e.coverage ∧ e.coverage ≤ 1 := by
  intro db tables e hmem
  obtain ⟨child, _, pc, _, hper⟩ := mem_collectFkEdges (mem_inferFkEdges hmem)
  unfold perColumnEdge at hper
  obtain ⟨p, hp, hacc, hedge⟩ := pickParent_some hper
  simp only [acceptsParent, Bool.and_eq_true, Bool.not_eq_true', beq_eq_false_iff_ne,
    decide_eq_true_eq] at hacc
  subst hedge
  simp only [edgeFor]
  have htot : 0 < (covQ db child pc.name p (pkColOf db p)).2 :=
    Nat.pos_of_ne_zero hacc.1
  have hle := covQ_le db child pc.name p (pkColOf db p)
  have htotQ : (0 : ℚ) < ((covQ db child pc.name p (pkColOf db p)).2 : ℚ) := by
    exact_mod_cast htot
  refine ⟨htot, hle, ?_, ?_, ?_⟩
  · rw [Rat.divInt_eq_div]
    push_cast
    rfl
  · rw [Rat.divInt_eq_div]
    push_cast
    positivity
  · rw [Rat.divInt_eq_div]
    push_cast
    rw [div_le_one htotQ]
    exact_mod_cast hle

/-- C9 witness at the edge of `demoDb`. -/
theorem fkEdge_invariants_witness :
    0 < demoEdge.total ∧ demoEdge.matched ≤ demoEdge.total ∧
      demoEdge.coverage = (demoEdge.matched : ℚ) / (demoEdge.total : ℚ) ∧
      0 ≤ demoEdge.coverage ∧ demoEdge.coverage ≤ 1 :=
  fkEdge_invariants demoDb demoTables demoEdge (by decide)

/-- C1 counterexample: on `demoDb` the column `orders.user_id` has two parent
candidates, `user` with coverage 4/5 and `users` with coverage 1, both over
the 0.8 threshold — yet `inferFkEdges` accepts `user` (the first candidate
in variant order) and never `users`, because the loop `break`s at the first
parent meeting the threshold instead of taking the highest coverage. -/
theorem inferFkEdges_not_highest_coverage :
    inferFkEdges demoDb demoTables = [demoEdge] ∧
    parentCandidates demoTables "user_id" = ["user", "users"] ∧
    acceptsParent demoDb "orders" "user_id" "users" = true ∧
    covQ demoDb "orders" "user_id" "users" "id" = (5, 5) ∧
    demoEdge.coverage < Rat.divInt 5 5 ∧
    (∀ e ∈ inferFkEdges demoDb demoTables, e.target ≠ "users") := by decide

lemma dbCols_names_nodup {db : Db} (hdb : dbWF db) (t : String) :
    ((dbCols db t).map (fun c => c.name)).Nodup := by
  unfold dbCols dbFind
  cases hf : db.find? (fun x => x.name == t) with
  | none => simp
  | some T =>
      simp only [Option.map_some', Option.getD_some]
      exact hdb T (List.mem_of_find?_eq_some hf)

lemma countP_perColumn_ne {db : Db} {tables : List String} {child colName c0 : String}
    (hne : c0 ≠ child) :
    ((dbCols db c0).filterMap (fun pc => perColumnEdge db tables c0 pc.name)).countP
      (fun e => e.source == child && e.col == colName) = 0 := by
  rw [List.countP_eq_zero]
  intro e he
  rw [List.mem_filterMap] at he
  obtain ⟨pc, _, hper⟩ := he
  have hsrc := (perColumnEdge_some hper).1
  simp only [Bool.and_eq_true, beq_iff_eq, not_and]
  intro hsrc' _
  exact hne (hsrc.symm.trans hsrc')

lemma countP_perColumn_self {db : Db} {tables : List String} {child colName : String} :
    ∀ cols : List PragCol, (cols.map (fun c => c.name)).Nodup →
    (cols.filterMap (fun pc => perColumnEdge db tables child pc.name)).countP
      (fun e => e.source == child && e.col == colName) ≤ 1 := by
  intro cols
  induction cols with
  | nil => intro _; simp
  | cons pc cols ih =>
      intro hnd
      rw [List.map_cons] at hnd
      have hnd' := (List.nodup_cons.mp hnd).2
      have hhead : pc.name ∉ cols.map (fun c => c.name) := (List.nodup_cons.mp hnd).1
      rw [List.filterMap_cons]
      cases hper : perColumnEdge db tables child pc.name with
      | none => exact ih hnd'
      | some e =>
          rw [List.countP_cons]
          by_cases hname : pc.name = colName
          · have h0 : (cols.filterMap (fun pc => perColumnEdge db tables child pc.name)).countP
                (fun e => e.source == child && e.col == colName) = 0 := by
              rw [List.countP_eq_zero]
              intro e' he'
              rw [List.mem_filterMap] at he'
              obtain ⟨pc', hpc', hper'⟩ := he'
              have hcol' := (perColumnEdge_some hper').2.1
              simp only [Bool.and_eq_true, beq_iff_eq, not_and]
              intro _ hcolName
              apply hhead
              rw [hname, ← hcolName, hcol']
              exact List.mem_map_of_mem _ hpc'
            rw [h0]
            split <;> omega
          · have hcol := (perColumnEdge_some hper).2.1
            have hpred : (e.source == child && e.col == colName) = false := by
              rw [hcol]
              simp [hname]
            rw [hpred]
            simpa using ih hnd'

lemma countP_flatMap_le_one {db : Db} {tables : List String} {child colName : String}
    (hdb : dbWF db) : ∀ l : List String, l.Nodup →
    (l.flatMap (fun c0 =>
        (dbCols db c0).filterMap (fun pc => perColumnEdge db tables c0 pc.name))).countP
      (fun e => e.source == child && e.col == colName) ≤ 1 := by
  intro l
  induction l with
  | nil => intro _; simp
  | cons c0 l ih =>
      intro hnd
      obtain ⟨hhead, htail⟩ := List.nodup_cons.mp hnd
      rw [List.flatMap_cons, List.countP_append]
      by_cases hc : c0 = child
      · subst hc
        have hrest : (l.flatMap (fun c1 =>
            (dbCols db c1).filterMap (fun pc => perColumnEdge db tables c1 pc.name))).countP
            (fun e => e.source == c0 && e.col == colName) = 0 := by
          rw [List.countP_eq_zero]
          intro e he
          rw [List.mem_flatMap] at he
          obtain ⟨c1, hc1, hin⟩ := he
          rw [List.mem_filterMap] at hin
          obtain ⟨pc, _, hper⟩ := hin
          have hsrc := (perColumnEdge_some hper).1
          simp only [Bool.and_eq_true, beq_iff_eq, not_and]
          intro hsrc' _
          apply hhead
          have hcc : c1 = c0 := hsrc.symm.trans hsrc'
          rw [← hcc]
          exact hc1
        rw [hrest]
        have h1 := @countP_perColumn_self db tables c0 colName (dbCols db c0)
          (dbCols_names_nodup hdb c0)
        omega
      · rw [countP_perColumn_ne hc]
        simpa using ih htail

/-- C1 amended: for every child column, `inferFkEdges` accepts the FIRST
parent candidate (in variant-resolution order) whose coverage query has a
non-zero total and coverage at least 0.8 — not the highest-coverage
candidate — and each (child, column) pair contributes at most one edge to
the returned list. -/
theorem inferFkEdges_first_above_threshold :
    ∀ (db : Db) (tables : List String) (child colName : String),
      dbWF db → tables.Nodup →
      (∀ ps : List String, pickParent db child colName ps =
          (ps.find? (acceptsParent db child colName)).map (edgeFor db child colName)) ∧
      (inferFkEdges db tables).countP
          (fun e => e.source == child && e.col == colName) ≤ 1 := by
  intro db tables child colName hdb hnd
  refine ⟨pickParent_eq_find db child colName, ?_⟩
  have h1 : (inferFkEdges db tables).countP
      (fun e => e.source == child && e.col == colName) ≤
      (List.insertionSort edgeLe (collectFkEdges db tables)).countP
        (fun e => e.source == child && e.col == colName) :=
    (List.take_sublist 30 _).countP_le _
  have h2 := (List.perm_insertionSort edgeLe (collectFkEdges db tables)).countP_eq
    (fun e => e.source == child && e.col == colName)
  have h3 := @countP_flatMap_le_one db tables child colName hdb tables hnd
  have h4 : (collectFkEdges db tables).countP
      (fun e => e.source == child && e.col == colName) ≤ 1 := h3
  omega

/-- C1 amended, witness on `demoDb`: the per-column pick is literally the
first accepted candidate, and `orders.user_id` contributes one edge. -/
theorem inferFkEdges_first_above_threshold_witness :
    (pickParent demoDb "orders" "user_id" (parentCandidates demoTables "user_id") =
      ((parentCandidates demoTables "user_id").find?
          (acceptsParent demoDb "orders" "user_id")).map
        (edgeFor demoDb "orders" "user_id")) ∧
    (inferFkEdges demoDb demoTables).countP
        (fun e => e.source == "orders" && e.col == "user_id") ≤ 1 :=
  ⟨(inferFkEdges_first_above_threshold demoDb demoTables "orders" "user_id"
      (by decide) (by decide)).1 (parentCandidates demoTables "user_id"),
   (inferFkEdges_first_above_threshold demoDb demoTables "orders" "user_id"
      (by decide) (by decide)).2⟩

lemma exceptBind_ok {ε α β : Type} {x : Except ε α} {f : α → Except ε β} {b : β}
    (h : x >>= f = Except.ok b) : ∃ a, x = Except.ok a ∧ f a = Except.ok b := by
  cases x with
  | error e => simp [Bind.bind, Except.bind] at h
  | ok a => exact ⟨a, rfl, by simpa [Bind.bind, Except.bind] using h⟩

lemma exceptBind_okL {ε α β : Type} (a : α) (f : α → Except ε β) :
    (Except.ok a >>= f) = f a := rfl

lemma exceptBind_errL {ε α β : Type} (e : ε) (f : α → Except ε β) :
    ((Except.error e : Except ε α) >>= f) = Except.error e := rfl

lemma exceptMapError_ok {ε ε' α : Type} {g : ε → ε'} {x : Except ε α} {a : α}
    (h : x.mapError g = Except.ok a) : x = Except.ok a := by
  cases x with
  | error e => simp [Except.mapError] at h
  | ok b => simpa [Except.mapError] using h

lemma foldlM_ok_step {α β : Type} (f : β → α → Except JsErr β) :
    ∀ (l : List α) (acc out : β), l.foldlM f acc = Except.ok out →
      ∀ a ∈ l, ∃ b c, f b a = Except.ok c := by
  intro l
  induction l with
  | nil =>
      intro acc out _ a ha
      simp at ha
  | cons x xs ih =>
      intro acc out hfold a ha
      rw [List.foldlM_cons] at hfold
      obtain ⟨acc', hx, hrest⟩ := exceptBind_ok hfold
      rcases List.mem_cons.mp ha with rfl | ha'
      · exact ⟨acc, acc', hx⟩
      · exact ih acc' out hrest a ha'

/-- If `getUniqueColumns` succeeds, every query it issued succeeded: the
index listing, `index_info` for each unique index, and the table info. -/
lemma getUniqueColumns_ok {st : MetaStore} {table : String} {us : List String}
    (h : getUniqueColumns st table = Except.ok us) :
    ∃ il, st.indexListQ table = Except.ok il ∧
      (∀ idx ∈ il, idx.unique = true → ∃ ii, st.indexInfoQ idx.name = Except.ok ii) ∧
      ∃ ti, st.tableInfoQ table = Except.ok ti := by
  unfold getUniqueColumns at h
  have hbody := exceptMapError_ok h
  unfold getUniqueColumnsBody at hbody
  obtain ⟨il, hil, h1⟩ := exceptBind_ok hbody
  obtain ⟨uniques, hfold, h2⟩ := exceptBind_ok h1
  obtain ⟨ti, hti, _⟩ := exceptBind_ok h2
  refine ⟨il, hil, ?_, ti, hti⟩
  intro idx hidx hu
  obtain ⟨b, c, hstep⟩ := foldlM_ok_step _ il [] uniques hfold idx hidx
  rw [if_pos hu] at hstep
  obtain ⟨ii, hii, _⟩ := exceptBind_ok hstep
  exact ⟨ii, hii⟩

/-- If `getTablesMeta` succeeds, every query the whole pass issued succeeded:
the table listing and, for each listed table, its `table_info`, its
`index_list`, and `index_info` for each of its unique indexes. -/
lemma getTablesMeta_ok {st : MetaStore} {metas : List TableMeta}
    (h : getTablesMeta st = Except.ok metas) :
    ∃ names, st.listTablesQ = Except.ok names ∧
      ∀ t ∈ names, (∃ ti, st.tableInfoQ t = Except.ok ti) ∧
        ∃ il, st.indexListQ t = Except.ok il ∧
          ∀ idx ∈ il, idx.unique = true → ∃ ii, st.indexInfoQ idx.name = Except.ok ii := by
  unfold getTablesMeta at h
  have hbody := exceptMapError_ok h
  unfold getTablesMetaBody at hbody
  obtain ⟨names, hnames, hfold⟩ := exceptBind_ok hbody
  refine ⟨names, hnames, ?_⟩
  intro t ht
  obtain ⟨out0, out1, hstep⟩ := foldlM_ok_step _ names [] metas hfold t ht
  dsimp only at hstep
  obtain ⟨ti, hti, h2⟩ := exceptBind_ok hstep
  obtain ⟨us, hus, _⟩ := exceptBind_ok h2
  obtain ⟨il, hil, hidx, _, _⟩ := getUniqueColumns_ok hus
  exact ⟨⟨ti, hti⟩, il, hil, hidx⟩

/-- C6: (1) the relationship-inference pass either returns a full candidate
list or fails with a single `SqliteMetaError`-shaped error carrying its
cause — `Except` returns no partial list; (2) a successful pass implies
every store query it issued (the table listing and, per table, `table_info`,
`index_list` and per-unique-index `index_info`) succeeded, so a failure of
ANY issued query forces the wrapped-error outcome — no error is silently
swallowed; (3) a `listTables` failure and (4) a per-table `table_info`
failure after a successful listing both propagate as the stage-wrapped
error carrying the underlying cause. -/
theorem inference_error_wrapping :
    ∀ (st : MetaStore) (o : InferOptions),
      ((∃ fks, inferRelationships st o = Except.ok fks) ∨
        (∃ msg cause, inferRelationships st o = Except.error (JsErr.sqliteMeta msg cause))) ∧
      (∀ fks, inferRelationships st o = Except.ok fks →
        ∃ names, st.listTablesQ = Except.ok names ∧
          ∀ t ∈ names, (∃ ti, st.tableInfoQ t = Except.ok ti) ∧
            ∃ il, st.indexListQ t = Except.ok il ∧
              ∀ idx ∈ il, idx.unique = true → ∃ ii, st.indexInfoQ idx.name = Except.ok ii) ∧
      (∀ e, st.listTablesQ = Except.error e →
        inferRelationships st o = Except.error (JsErr.sqliteMeta "getTablesMeta failed" e)) ∧
      (∀ t rest e, st.listTablesQ = Except.ok (t :: rest) →
        st.tableInfoQ t = Except.error e →
        inferRelationships st o = Except.error (JsErr.sqliteMeta "getTablesMeta failed" e)) := by
  intro st o
  refine ⟨?_, ?_, ?_, ?_⟩
  · cases hb : getTablesMetaBody st with
    | ok metas =>
        left
        refine ⟨inferForeignKeys metas o, ?_⟩
        unfold inferRelationships getTablesMeta
        rw [hb]
        rfl
    | error e =>
        right
        refine ⟨"getTablesMeta failed", e, ?_⟩
        unfold inferRelationships getTablesMeta
        rw [hb]
        rfl
  · intro fks hok
    have hmetas : ∃ metas, getTablesMeta st = Except.ok metas := by
      unfold inferRelationships at hok
      cases hb : getTablesMeta st with
      | ok metas => exact ⟨metas, rfl⟩
      | error e =>
          rw [hb] at hok
          exact Except.noConfusion hok
    obtain ⟨metas, hm⟩ := hmetas
    exact getTablesMeta_ok hm
  · intro e he
    have hb : getTablesMetaBody st = Except.error e := by
      unfold getTablesMetaBody
      rw [he]
      rfl
    unfold inferRelationships getTablesMeta
    rw [hb]
    rfl
  · intro t rest e hlist hti
    have hb : getTablesMetaBody st = Except.error e := by
      unfold getTablesMetaBody
      rw [hlist, exceptBind_okL, List.foldlM_cons]
      dsimp only
      rw [hti, exceptBind_errL, exceptBind_errL]
    unfold inferRelationships getTablesMeta
    rw [hb]
    rfl

/-- C6 witness: a failing `listTables` and a table dropped between listing
and `table_info` both yield the wrapped error on concrete stores, while the
healthy `okStore` pass certifies that all its issued queries succeeded. -/
theorem inference_error_wrapping_witness :
    (inferRelationships errStore defaultInferOptions =
      Except.error (JsErr.sqliteMeta "getTablesMeta failed" (JsErr.store "db unavailable"))) ∧
    (∃ names, okStore.listTablesQ = Except.ok names ∧
      ∀ t ∈ names, (∃ ti, okStore.tableInfoQ t = Except.ok ti) ∧
        ∃ il, okStore.indexListQ t = Except.ok il ∧
          ∀ idx ∈ il, idx.unique = true → ∃ ii, okStore.indexInfoQ idx.name = Except.ok ii) ∧
    (inferRelationships dropStore defaultInferOptions =
      Except.error (JsErr.sqliteMeta "getTablesMeta failed"
        (JsErr.store "no such table: roles"))) :=
  ⟨(inference_error_wrapping errStore defaultInferOptions).2.2.1
      (JsErr.store "db unavailable") rfl,
   (inference_error_wrapping okStore defaultInferOptions).2.1 [] rfl,
   (inference_error_wrapping dropStore defaultInferOptions).2.2.2 "roles" []
      (JsErr.store "no such table: roles") rfl rfl⟩

/-- C10 counterexample: when the headers do contain `id` but its values
repeat, the import plan still prepends the surrogate `id INTEGER PRIMARY
KEY`, so the created table's column list declares `id` twice — the
surrogate is NOT a column absent from the input headers, and the resulting
`CREATE TABLE` is invalid (duplicate column name) rather than a table with
one extra column. -/
theorem importPlan_duplicate_id :
    (importPlan dupIdRows).map (fun p => (p.pk, p.headers, p.columnNames)) =
      some (none, ["id"], ["id", "id"]) ∧
    (["id", "id"] : List String).count "id" = 2 := by decide

/-- C10 amended: the natural `id` key is selected exactly when `id` is a
header whose values are all non-empty and pairwise distinct as strings; then
the column list is exactly the headers (no extra column).  Otherwise a
surrogate `id` is prepended unconditionally — a genuinely fresh column only
when no `id` header exists. -/
theorem importPlan_surrogate_amended :
    ∀ (rows : List DbRow) (plan : CsvPlan), importPlan rows = some plan →
      (plan.pk = some "id" ↔
        ("id" ∈ plan.headers ∧ (∀ r ∈ rows, cellNonBlank r "id" = true) ∧
          (rows.map (fun r => strOfCell (rowVal r "id"))).Nodup)) ∧
      (plan.pk = some "id" → plan.columnNames = plan.headers ∧
        plan.insertCols = plan.headers) ∧
      (plan.pk = none → plan.columnNames = "id" :: plan.headers ∧
        plan.insertCols = "id" :: plan.headers) ∧
      (plan.pk = none → "id" ∉ plan.headers → plan.columnNames.count "id" = 1) := by
  intro rows plan h
  cases rows with
  | nil => exact Option.noConfusion h
  | cons r0 rest =>
      unfold importPlan at h
      dsimp only at h
      by_cases hh : (r0.map (fun p => p.1)).isEmpty
      · rw [if_pos hh] at h
        exact Option.noConfusion h
      · rw [if_neg hh] at h
        obtain rfl := (Option.some.inj h).symm
        dsimp only
        by_cases hpk : (((r0.map (fun p => p.1)).contains "id" &&
            (r0 :: rest).all (fun r => cellNonBlank r "id")) &&
              decide ((r0 :: rest).map (fun r => strOfCell (rowVal r "id"))).Nodup) = true
        · rw [if_pos hpk, if_pos hpk]
          have hpk' := hpk
          simp only [Bool.and_eq_true, List.all_eq_true, decide_eq_true_eq] at hpk'
          refine ⟨?_, fun _ => ⟨rfl, rfl⟩, ?_, ?_⟩
          · constructor
            · intro _
              refine ⟨?_, hpk'.1.2, hpk'.2⟩
              have := hpk'.1.1
              simpa using this
            · intro _
              rfl
          · intro hfalse
            exact Option.noConfusion hfalse
          · intro hfalse
            exact Option.noConfusion hfalse
        · rw [if_neg hpk, if_neg hpk]
          refine ⟨?_, ?_, fun _ => ⟨rfl, rfl⟩, ?_⟩
          · constructor
            · intro hfalse
              exact Option.noConfusion hfalse
            · intro hr
              exfalso
              apply hpk
              simp only [Bool.and_eq_true, List.all_eq_true, decide_eq_true_eq]
              refine ⟨⟨?_, hr.2.1⟩, hr.2.2⟩
              simpa using hr.1
          · intro hfalse
            exact Option.noConfusion hfalse
          · intro _ hnot
            rw [List.count_cons_self]
            rw [List.count_eq_zero.mpr hnot]

/-- C10 amended, witness: rows without an `id` header get the surrogate
column prepended. -/
theorem importPlan_surrogate_amended_witness :
    freshPlan.columnNames = "id" :: freshPlan.headers ∧
      freshPlan.insertCols = "id" :: freshPlan.headers :=
  (importPlan_surrogate_amended freshRows freshPlan (by decide)).2.2.1 (by decide)

end DataGlimpse
